import Mathlib

/-!
Shallow embedding of the core training/inference pipeline of the
fake-job-detection repository (files `train.py` and `app.py`).

Python strings are modelled as Lean `String`, Python `None` for a possibly
missing value as `Option`, Python floats produced by `clean_salary` as `ℚ`
(every number the code builds there is a quotient of naturals, so the
rational model is exact on the integer/mean arithmetic the claims discuss).
-/

namespace FakeJob

/-- Python `str.strip()` whitespace test, restricted to the ASCII whitespace
characters `" \t\n\r\x0b\x0c"` that Python strips. -/
def pyIsSpace (c : Char) : Bool :=
  c == ' ' || c == '\t' || c == '\n' || c == '\r' || c == '\x0b' || c == '\x0c'

/-- Python `s.strip()`: drop leading and trailing whitespace characters. -/
def pyStrip (s : String) : String :=
  String.mk (((s.data.dropWhile pyIsSpace).reverse.dropWhile pyIsSpace).reverse)

/-- Python `" ".join(l)`: interleave a single space between the elements. -/
def joinSp : List String → String
  | [] => ""
  | [s] => s
  | s :: ss => s ++ " " ++ joinSp ss

/-- Digits of a decimal literal folded to its numeric value; models Python
`float(x)` applied to a string of digits (exact, since such strings denote
naturals). -/
def digitsToNat (l : List Char) : Nat :=
  l.foldl (fun n c => 10 * n + (c.toNat - 48)) 0

/-- Python `float(x.replace(",", ""))` for a regex match `x` of
`\d+(?:,\d+)?`: strip the comma separators and read the digits. -/
def parseNum (r : List Char) : ℚ :=
  (digitsToNat (r.filter (fun c => c != ',')) : ℚ)

/-- One greedy match of the regex `\d+(?:,\d+)?` starting at the head of `l`
(which the caller ensures starts with a digit): the maximal digit run,
optionally followed by one comma-and-digits group. Returns the match and the
rest of the input. -/
def matchNum (l : List Char) : List Char × List Char :=
  match l.dropWhile Char.isDigit with
  | ',' :: c :: cs =>
      if c.isDigit then
        (l.takeWhile Char.isDigit ++ ',' :: (c :: cs).takeWhile Char.isDigit,
         (c :: cs).dropWhile Char.isDigit)
      else (l.takeWhile Char.isDigit, l.dropWhile Char.isDigit)
  | _ => (l.takeWhile Char.isDigit, l.dropWhile Char.isDigit)

/-- Python `re.findall(r"\d+(?:,\d+)?", s)`: scan left to right, emit each
non-overlapping greedy match, resume after it. `fuel` bounds the recursion;
every step consumes at least one character, so `fuel = length` is enough. -/
def scanNums : Nat → List Char → List (List Char)
  | 0, _ => []
  | _ + 1, [] => []
  | fuel + 1, c :: cs =>
      if c.isDigit then
        let m := matchNum (c :: cs)
        m.1 :: scanNums fuel m.2
      else scanNums fuel cs

/-- All matches of `\d+(?:,\d+)?` in `s`, as character runs. -/
def findNums (s : String) : List (List Char) :=
  scanNums s.data.length s.data

/-- The list `nums` built by `clean_salary` in both `app.py` and `train.py`:
`[float(x.replace(",", "")) for x in re.findall(r"\d+(?:,\d+)?", s)]`. -/
def extractNums (s : String) : List ℚ :=
  (findNums s).map parseNum

/-- Function `clean_salary` of `app.py` (lines 26-37): `None`/blank input gives `0.0`;
otherwise zero numbers give `0.0`, one number gives that number, several give
the mean of all of them. -/
def cleanSalaryApp : Option String → ℚ
  | none => 0
  | some s =>
      if pyStrip s = "" then 0
      else if (extractNums s).length = 0 then 0
      else if (extractNums s).length = 1 then (extractNums s).headI
      else (extractNums s).sum / ((extractNums s).length : ℚ)

/-- Function `clean_salary` of `train.py` (lines 31-38): same guards, but the
non-empty case always returns `sum(nums) / len(nums)`. -/
def cleanSalaryTrain : Option String → ℚ
  | none => 0
  | some s =>
      if pyStrip s = "" then 0
      else if extractNums s = [] then 0
      else (extractNums s).sum / ((extractNums s).length : ℚ)

/-- A row of the training dataset; a missing cell is `none`, which
`df.fillna("")` in `load_data` replaces by the empty string. -/
structure JobRecord where
  job_title : Option String
  salary_range : Option String
  company_profile : Option String
  requirements : Option String

/-- The `text` column built by `load_data` in `train.py` (lines 49-53):
`df["job_title"] + " " + df["company_profile"] + " " + df["requirements"]`
after `fillna("")`. Note: no trimming and no salary field. -/
def trainText (r : JobRecord) : String :=
  (r.job_title.getD "") ++ " " ++ (r.company_profile.getD "") ++ " " ++
    (r.requirements.getD "")

/-- The raw form fields of a `/predict` request (`request.form.get` defaults
a missing field to `""`, so plain strings suffice). -/
structure PredictForm where
  text : String
  job_title : String
  salary_range : String
  company_profile : String
  requirements : String

/-- The `text` value assembled by the `predict` route in `app.py`
(lines 224-231): every field is stripped; when the free-text field is blank
and some discrete field is not, `text` becomes the stripped single-space join
of job_title, salary_range, company_profile, requirements — salary included. -/
def inferText (f : PredictForm) : String :=
  let t := pyStrip f.text
  let jt := pyStrip f.job_title
  let sr := pyStrip f.salary_range
  let cp := pyStrip f.company_profile
  let rq := pyStrip f.requirements
  if t = "" ∧ (jt ≠ "" ∨ sr ≠ "" ∨ cp ≠ "" ∨ rq ≠ "") then
    pyStrip (joinSp [jt, sr, cp, rq])
  else t

/-- Label mapping of `app.py` line 255:
`"Fake Job Posting" if pred == 1 else "Real Job Posting"`. -/
def labelOf (pred : Int) : String :=
  if pred = 1 then "Fake Job Posting" else "Real Job Posting"

/-- The process-wide ML cache `app.ml` of `app.py` (the `"model"` and
`"vectorizer"` slots; the unused `"pipeline"` slot and the path strings are
omitted). `none` models Python `None`. -/
structure MLCache (V M : Type) where
  vectorizer : Option V
  model : Option M
deriving DecidableEq

/-- What the filesystem and deserializer would answer for the two artifact
paths: whether each file exists, and the outcome of `joblib.load` on it
(`Except` models a raised deserialization exception). -/
structure Storage (V M : Type) where
  vec_exists : Bool
  vec_load : Except String V
  model_exists : Bool
  model_load : Except String M

/-- Function `load_ml` of `app.py` (lines 206-218). If both slots are already truthy
the cache is returned untouched. Otherwise the `try` block loads the
vectorizer then the model, each guarded by `os.path.exists`; an exception
aborts the rest of the block but keeps every assignment already made, and is
swallowed (only logged). -/
def load_ml {V M : Type} (st : Storage V M) (c : MLCache V M) : MLCache V M :=
  if c.model.isSome && c.vectorizer.isSome then c
  else
    match st.vec_exists, st.vec_load with
    | true, .error _ => c
    | true, .ok v =>
        match st.model_exists, st.model_load with
        | true, .error _ => ⟨some v, c.model⟩
        | true, .ok m => ⟨some v, some m⟩
        | false, _ => ⟨some v, c.model⟩
    | false, _ =>
        match st.model_exists, st.model_load with
        | true, .error _ => c
        | true, .ok m => ⟨c.vectorizer, some m⟩
        | false, _ => c

/-- The typed failures the `predict` route reports to its caller (as a JSON
error or a flash message) instead of crashing: the empty-input validation
error, the missing-model error, and the catch-all `except` branch. -/
inductive PredictErr where
  | inputEmpty
  | modelMissing
  | predictionFailed (msg : String)
deriving DecidableEq

/-- The environment a `/predict` request runs against: the artifact storage,
the behaviour of `model.predict` on the assembled one-row frame (text and
numeric salary; `Except` models a raised exception), and whether the
history-store commit raises. -/
structure Env (V M : Type) where
  storage : Storage V M
  run : M → String → ℚ → Except String Int
  commit_fails : Bool

/-- The `predict` route of `app.py` (lines 220-273), as a function from the
request form, the current cache and the persisted prediction history to the
response, the new cache and the new history. Response-format branching on
`X-Requested-With` is abstracted away; both branches report the same
success label or typed failure. -/
def predictRoute {V M : Type} (env : Env V M) (f : PredictForm)
    (c : MLCache V M) (hist : List (String × String)) :
    Except PredictErr String × MLCache V M × List (String × String) :=
  let text := inferText f
  if text = "" then (.error .inputEmpty, c, hist)
  else
    let c2 := load_ml env.storage c
    match c2.vectorizer, c2.model with
    | some _, some m =>
        match env.run m text (cleanSalaryApp (some (pyStrip f.salary_range))) with
        | .error e => (.error (.predictionFailed e), c2, hist)
        | .ok pred =>
            let label := labelOf pred
            if env.commit_fails then
              (.error (.predictionFailed "database commit failed"), c2, hist)
            else (.ok label, c2, hist ++ [(text, label)])
    | _, _ => (.error .modelMissing, c2, hist)

/-- The blank-input condition of the `predict` route: the free-text field and
all four discrete form fields are blank after stripping. -/
def allFieldsBlank (f : PredictForm) : Prop :=
  pyStrip f.text = "" ∧ pyStrip f.job_title = "" ∧ pyStrip f.salary_range = "" ∧
    pyStrip f.company_profile = "" ∧ pyStrip f.requirements = ""

/-- Number of rows of a labelled training set carrying label `k`
(labels are `0` = REAL, `1` = FAKE). -/
def countLabel {α : Type} (k : Int) (xs : List (α × Int)) : Nat :=
  (xs.filter (fun p => p.2 == k)).length

/-- Modelled from the spec: the label whose class is smaller (for the
resampler of section 4.3); ties resolve to `1`, which the resampler never
reaches since it only acts on unequal counts. -/
def minorityLabel {α : Type} (xs : List (α × Int)) : Int :=
  if countLabel 0 xs < countLabel 1 xs then 0 else 1

/-- Modelled from the spec: the class-imbalance resampler
(`RandomOverSampler(random_state=42).fit_resample` called in `train.py`
lines 71-72, whose implementation is not part of this repository).
Section 4.3: oversample the minority class with replacement until both
classes have equal count, duplicating original rows exactly; the sampled
indices are a deterministic function `pick` of the fixed random seed.
Rows pair a feature vector with its label; resampled rows are appended
after the originals. -/
def resample {α : Type} (pick : Nat → Nat) (xs : List (α × Int)) :
    List (α × Int) :=
  if countLabel 0 xs = countLabel 1 xs then xs
  else
    match xs.filter (fun p => p.2 == minorityLabel xs) with
    | [] => xs
    | r :: rs =>
        xs ++ (List.range (max (countLabel 0 xs) (countLabel 1 xs) -
            min (countLabel 0 xs) (countLabel 1 xs))).map
          (fun i => (r :: rs).getD (pick i % (rs.length + 1)) r)

example : pyStrip "  a b " = "a b" := by decide
example : extractNums "50,000-70,000" = [50000, 70000] := by decide
example : extractNums "1,000,000" = [1000, 0] := by decide
example : cleanSalaryApp (some "$50,000") = 50000 := by decide
example : cleanSalaryApp (some "50,000-70,000") = 60000 := by
  have h : extractNums "50,000-70,000" = [50000, 70000] := by decide
  have hs : ¬ pyStrip "50,000-70,000" = "" := by decide
  simp [cleanSalaryApp, h, hs]
  norm_num

example : cleanSalaryApp (some "100 200 300") = 200 := by
  have h : extractNums "100 200 300" = [100, 200, 300] := by decide
  have hs : ¬ pyStrip "100 200 300" = "" := by decide
  simp [cleanSalaryApp, h, hs]
  norm_num
example : cleanSalaryApp (some "not a number") = 0 := by decide
example : inferText ⟨"", "a", "5", "b", "c"⟩ = "a 5 b c" := by decide
example : trainText ⟨some "a", some "5", some "b", some "c"⟩ = "a b c" := by decide

/-- Characters stripped by `pyStrip` are never decimal digits. -/
lemma pyIsSpace_not_digit {c : Char} (h : pyIsSpace c = true) :
    c.isDigit = false := by
  have h6 : c = ' ' ∨ c = '\t' ∨ c = '\n' ∨ c = '\r' ∨ c = '\x0b' ∨ c = '\x0c' := by
    simpa [pyIsSpace, or_assoc] using h
  rcases h6 with h | h | h | h | h | h <;> subst h <;> decide

/-- A string strips to the empty string exactly when all of its characters
are Python whitespace. -/
lemma pyStrip_eq_empty_iff {s : String} :
    pyStrip s = "" ↔ ∀ c ∈ s.data, pyIsSpace c = true := by
  constructor
  · intro h c hc
    have hmk : ((s.data.dropWhile pyIsSpace).reverse.dropWhile pyIsSpace).reverse
        = [] := by
      have hd := congrArg String.data h
      simpa [pyStrip] using hd
    rw [List.reverse_eq_nil_iff, List.dropWhile_eq_nil_iff] at hmk
    have hsplit := List.takeWhile_append_dropWhile pyIsSpace (l := s.data)
    rw [← hsplit] at hc
    rcases List.mem_append.1 hc with h1 | h2
    · exact List.mem_takeWhile_imp h1
    · exact hmk c (List.mem_reverse.2 h2)
  · intro h
    have h1 : s.data.dropWhile pyIsSpace = [] := List.dropWhile_eq_nil_iff.2 h
    simp [pyStrip, h1]

/-- A non-whitespace character of a list survives `dropWhile pyIsSpace`. -/
lemma mem_dropWhile_of_not_space {c : Char} :
    ∀ {l : List Char}, c ∈ l → pyIsSpace c = false →
      c ∈ l.dropWhile pyIsSpace
  | [], hc, _ => absurd hc (List.not_mem_nil c)
  | x :: xs, hc, hns => by
      by_cases hx : pyIsSpace x
      · rcases List.mem_cons.1 hc with rfl | hc2
        · rw [hx] at hns; cases hns
        · rw [List.dropWhile_cons_of_pos hx]
          exact mem_dropWhile_of_not_space hc2 hns
      · rw [List.dropWhile_cons_of_neg hx]
        exact hc

/-- A non-whitespace character of `s` survives into `pyStrip s`. -/
lemma mem_pyStrip_of_mem {s : String} {c : Char} (hc : c ∈ s.data)
    (hns : pyIsSpace c = false) : c ∈ (pyStrip s).data := by
  unfold pyStrip
  refine List.mem_reverse.2 (mem_dropWhile_of_not_space ?_ hns)
  exact List.mem_reverse.2 (mem_dropWhile_of_not_space hc hns)

/-- A string containing a non-whitespace character does not strip to `""`. -/
lemma pyStrip_ne_empty_of_mem {s : String} {c : Char} (hc : c ∈ s.data)
    (hns : pyIsSpace c = false) : pyStrip s ≠ "" := by
  intro h
  have := pyStrip_eq_empty_iff.1 h c hc
  rw [this] at hns
  cases hns

/-- The regex scanner finds nothing in a digit-free character list. -/
lemma scanNums_eq_nil :
    ∀ (fuel : Nat) (l : List Char), (∀ c ∈ l, c.isDigit = false) →
      scanNums fuel l = []
  | 0, _, _ => rfl
  | _ + 1, [], _ => rfl
  | fuel + 1, c :: cs, h => by
      have hc : c.isDigit = false := h c (List.mem_cons_self c cs)
      simp only [scanNums, hc, Bool.false_eq_true, if_false]
      exact scanNums_eq_nil fuel cs fun d hd => h d (List.mem_cons_of_mem c hd)

/-- A string that strips to `""` yields no salary numbers. -/
lemma extractNums_eq_nil_of_strip_empty {s : String} (h : pyStrip s = "") :
    extractNums s = [] := by
  have hall := pyStrip_eq_empty_iff.1 h
  have : findNums s = [] :=
    scanNums_eq_nil _ _ fun c hc => pyIsSpace_not_digit (hall c hc)
  simp [extractNums, this]

/-- Every number the scanner extracts is a natural number cast to `ℚ`,
hence non-negative. -/
lemma extractNums_nonneg {s : String} : ∀ x ∈ extractNums s, 0 ≤ x := by
  intro x hx
  rcases List.mem_map.1 hx with ⟨r, _, rfl⟩
  exact Nat.cast_nonneg _

/-- The two copies of `clean_salary` (in `app.py` and `train.py`) are
extensionally equal. -/
lemma cleanSalary_app_eq_train (o : Option String) :
    cleanSalaryApp o = cleanSalaryTrain o := by
  rcases o with _ | s
  · rfl
  · unfold cleanSalaryApp cleanSalaryTrain
    by_cases hs : pyStrip s = ""
    · simp [hs]
    · rcases hnums : extractNums s with _ | ⟨x, _ | ⟨y, rest⟩⟩ <;>
        simp [hs, hnums]

/-- Salary normalization never returns a negative value. -/
lemma cleanSalaryApp_nonneg (o : Option String) : 0 ≤ cleanSalaryApp o := by
  rcases o with _ | s
  · exact le_refl 0
  · simp only [cleanSalaryApp]
    by_cases hs : pyStrip s = ""
    · simp [hs]
    · rcases hnums : extractNums s with _ | ⟨x, rest⟩
      · simp [hs, hnums]
      · have hx : 0 ≤ x := extractNums_nonneg x (hnums ▸ List.mem_cons_self x rest)
        rw [if_neg hs]
        rcases rest with _ | ⟨z, zs⟩
        · simpa [List.headI] using hx
        · have h0 : (x :: z :: zs).length ≠ 0 := by simp
          have h1 : (x :: z :: zs).length ≠ 1 := by simp
          rw [if_neg h0, if_neg h1]
          have hsum : 0 ≤ (x :: z :: zs).sum := by
            rw [← hnums]
            exact List.sum_nonneg fun y hy => extractNums_nonneg y hy
          exact div_nonneg hsum (Nat.cast_nonneg _)

/-- Any character of one of four joined strings occurs in the join. -/
lemma mem_joinSp4 {a b c d : String} {x : Char}
    (h : x ∈ a.data ∨ x ∈ b.data ∨ x ∈ c.data ∨ x ∈ d.data) :
    x ∈ (joinSp [a, b, c, d]).data := by
  simp only [joinSp, String.data_append, List.mem_append]
  tauto

/-- A non-empty stripped string contains a non-whitespace character. -/
lemma exists_nonspace_of_strip_ne {t : String} (h : pyStrip t ≠ "") :
    ∃ c ∈ (pyStrip t).data, pyIsSpace c = false := by
  have h2 : ¬ ∀ c ∈ t.data, pyIsSpace c = true :=
    fun hall => h (pyStrip_eq_empty_iff.2 hall)
  push_neg at h2
  rcases h2 with ⟨c, hc, hcs⟩
  have hcs2 : pyIsSpace c = false := by simpa using hcs
  exact ⟨c, mem_pyStrip_of_mem hc hcs2, hcs2⟩

/-- When at least one of the four stripped form fields is non-blank, the
stripped space-join of the four is non-blank as well. -/
lemma pyStrip_join_ne_empty {f : PredictForm}
    (h : pyStrip f.job_title ≠ "" ∨ pyStrip f.salary_range ≠ "" ∨
      pyStrip f.company_profile ≠ "" ∨ pyStrip f.requirements ≠ "") :
    pyStrip (joinSp [pyStrip f.job_title, pyStrip f.salary_range,
      pyStrip f.company_profile, pyStrip f.requirements]) ≠ "" := by
  rcases h with h | h | h | h
  · rcases exists_nonspace_of_strip_ne h with ⟨c, hc, hcs⟩
    exact pyStrip_ne_empty_of_mem (mem_joinSp4 (Or.inl hc)) hcs
  · rcases exists_nonspace_of_strip_ne h with ⟨c, hc, hcs⟩
    exact pyStrip_ne_empty_of_mem (mem_joinSp4 (Or.inr (Or.inl hc))) hcs
  · rcases exists_nonspace_of_strip_ne h with ⟨c, hc, hcs⟩
    exact pyStrip_ne_empty_of_mem (mem_joinSp4 (Or.inr (Or.inr (Or.inl hc)))) hcs
  · rcases exists_nonspace_of_strip_ne h with ⟨c, hc, hcs⟩
    exact pyStrip_ne_empty_of_mem (mem_joinSp4 (Or.inr (Or.inr (Or.inr hc)))) hcs

/-- The assembled inference text is blank exactly when every form field is
blank after stripping. -/
lemma inferText_eq_empty_iff (f : PredictForm) :
    inferText f = "" ↔ allFieldsBlank f := by
  by_cases hc : pyStrip f.text = "" ∧ (pyStrip f.job_title ≠ "" ∨
      pyStrip f.salary_range ≠ "" ∨ pyStrip f.company_profile ≠ "" ∨
      pyStrip f.requirements ≠ "")
  · have he : inferText f = pyStrip (joinSp [pyStrip f.job_title,
        pyStrip f.salary_range, pyStrip f.company_profile,
        pyStrip f.requirements]) := by
      simp only [inferText]
      rw [if_pos hc]
    rw [he]
    constructor
    · intro h
      exact absurd h (pyStrip_join_ne_empty hc.2)
    · rintro ⟨-, h1, h2, h3, h4⟩
      rcases hc.2 with h | h | h | h
      · exact absurd h1 h
      · exact absurd h2 h
      · exact absurd h3 h
      · exact absurd h4 h
  · have he : inferText f = pyStrip f.text := by
      simp only [inferText]
      rw [if_neg hc]
    rw [he]
    constructor
    · intro h
      have hb : ¬ (pyStrip f.job_title ≠ "" ∨ pyStrip f.salary_range ≠ "" ∨
          pyStrip f.company_profile ≠ "" ∨ pyStrip f.requirements ≠ "") :=
        fun hd => hc ⟨h, hd⟩
      push_neg at hb
      exact ⟨h, hb.1, hb.2.1, hb.2.2.1, hb.2.2.2⟩
    · exact fun h => h.1

/-- A maximal digit run contains no comma. -/
lemma count_comma_takeWhile (l : List Char) :
    (l.takeWhile Char.isDigit).count ',' = 0 := by
  rw [List.count_eq_zero]
  intro hmem
  exact absurd (List.mem_takeWhile_imp hmem) (by decide)

/-- A single regex match contains at most one comma. -/
lemma matchNum_count_comma (l : List Char) :
    (matchNum l).1.count ',' ≤ 1 := by
  unfold matchNum
  split
  · split
    · simp [List.count_append, count_comma_takeWhile]
    · simp [count_comma_takeWhile]
  · simp [count_comma_takeWhile]

/-- Every run the scanner emits contains at most one comma. -/
lemma scanNums_count_comma :
    ∀ (fuel : Nat) (l r : List Char), r ∈ scanNums fuel l → r.count ',' ≤ 1
  | 0, _, _, h => absurd h (List.not_mem_nil _)
  | _ + 1, [], _, h => absurd h (List.not_mem_nil _)
  | fuel + 1, c :: cs, r, h => by
      by_cases hc : c.isDigit = true
      · simp only [scanNums, hc, if_true] at h
        rcases List.mem_cons.1 h with rfl | h2
        · exact matchNum_count_comma _
        · exact scanNums_count_comma fuel _ r h2
      · simp only [scanNums, hc, if_false] at h
        exact scanNums_count_comma fuel cs r h

/-- After a load from fully healthy storage, both cache slots are set. -/
lemma load_ml_complete_of_good {V M : Type} (st : Storage V M)
    (c : MLCache V M) (hv : st.vec_exists = true)
    (hvl : ∃ v, st.vec_load = .ok v) (hm : st.model_exists = true)
    (hml : ∃ m, st.model_load = .ok m) :
    (load_ml st c).vectorizer.isSome ∧ (load_ml st c).model.isSome := by
  obtain ⟨v, hvl⟩ := hvl
  obtain ⟨m, hml⟩ := hml
  unfold load_ml
  by_cases hg : (c.model.isSome && c.vectorizer.isSome) = true
  · rw [if_pos hg]
    rw [Bool.and_eq_true] at hg
    exact ⟨hg.2, hg.1⟩
  · rw [if_neg hg, hv, hvl, hm, hml]
    exact ⟨rfl, rfl⟩

/-- Blank assembled text short-circuits the route before any model access. -/
lemma predictRoute_blank {V M : Type} (env : Env V M) (f : PredictForm)
    (c : MLCache V M) (hist : List (String × String))
    (h : inferText f = "") :
    predictRoute env f c hist = (.error .inputEmpty, c, hist) := by
  simp only [predictRoute]
  rw [if_pos h]

/-- If after the lazy load a cache slot is still unset, the route reports the
missing-model failure and leaves the history untouched. -/
lemma predictRoute_missing {V M : Type} (env : Env V M) (f : PredictForm)
    (c : MLCache V M) (hist : List (String × String))
    (h : inferText f ≠ "")
    (hmiss : (load_ml env.storage c).vectorizer = none ∨
      (load_ml env.storage c).model = none) :
    predictRoute env f c hist =
      (.error .modelMissing, load_ml env.storage c, hist) := by
  simp only [predictRoute]
  rw [if_neg h]
  rcases hv : (load_ml env.storage c).vectorizer with _ | v
  · rfl
  · rcases hm : (load_ml env.storage c).model with _ | m
    · rfl
    · exfalso
      rcases hmiss with h2 | h2
      · rw [hv] at h2; cases h2
      · rw [hm] at h2; cases h2

/-- With both cache slots set after the lazy load, the route proceeds to the
classifier and the label mapping. -/
lemma predictRoute_ready {V M : Type} (env : Env V M) (f : PredictForm)
    (c : MLCache V M) (hist : List (String × String)) {v : V} {m : M}
    (h : inferText f ≠ "")
    (hv : (load_ml env.storage c).vectorizer = some v)
    (hm : (load_ml env.storage c).model = some m) :
    predictRoute env f c hist =
      (match env.run m (inferText f)
          (cleanSalaryApp (some (pyStrip f.salary_range))) with
       | .error e =>
          (.error (.predictionFailed e), load_ml env.storage c, hist)
       | .ok pred =>
          if env.commit_fails then
            (.error (.predictionFailed "database commit failed"),
              load_ml env.storage c, hist)
          else
            (.ok (labelOf pred), load_ml env.storage c,
              hist ++ [(inferText f, labelOf pred)])) := by
  simp only [predictRoute]
  rw [if_neg h, hv, hm]

/-- The route reports the empty-input failure only via its first branch. -/
lemma predictRoute_fst_ne_inputEmpty {V M : Type} (env : Env V M)
    (f : PredictForm) (c : MLCache V M) (hist : List (String × String))
    (h : inferText f ≠ "") :
    (predictRoute env f c hist).1 ≠ .error .inputEmpty := by
  rcases hv : (load_ml env.storage c).vectorizer with _ | v
  · rw [predictRoute_missing env f c hist h (Or.inl hv)]
    simp
  · rcases hm : (load_ml env.storage c).model with _ | m
    · rw [predictRoute_missing env f c hist h (Or.inr hm)]
      simp
    · rw [predictRoute_ready env f c hist h hv hm]
      cases hrun : env.run m (inferText f)
          (cleanSalaryApp (some (pyStrip f.salary_range))) with
      | error e => simp
      | ok p =>
          by_cases hcf : env.commit_fails = true
          · simp [hcf]
          · simp [hcf]

/-- The label mapping can only ever produce the two fixed strings. -/
lemma labelOf_cases (p : Int) :
    labelOf p = "Fake Job Posting" ∨ labelOf p = "Real Job Posting" := by
  unfold labelOf
  split
  · exact Or.inl rfl
  · exact Or.inr rfl

/-- Reading `getD` on a list returns a member of the list or the default. -/
lemma getD_mem_or_eq {α : Type} (l : List α) (k : Nat) (d : α) :
    l.getD k d ∈ l ∨ l.getD k d = d := by
  induction l generalizing k with
  | nil => exact Or.inr (by simp)
  | cons x xs ih =>
      cases k with
      | zero => exact Or.inl (by simp)
      | succ k =>
          have h2 : (x :: xs).getD (k + 1) d = xs.getD k d := by
            simp [List.getD]
          rw [h2]
          rcases ih k with h | h
          · exact Or.inl (List.mem_cons_of_mem _ h)
          · exact Or.inr h

/-- Reading `getD` with a default drawn from the list always returns a member. -/
lemma getD_mem_of_mem {α : Type} {d : α} (l : List α) (k : Nat)
    (hd : d ∈ l) : l.getD k d ∈ l := by
  rcases getD_mem_or_eq l k d with h | h
  · exact h
  · rw [h]
    exact hd

/-- C1, counterexample: for the record (job_title "a", salary_range "5",
company_profile "b", requirements "c") with a blank free-text field, the
inference path assembles the text "a 5 b c" (salary_range folded in between
job_title and company_profile) while the training path assembles "a b c", so
the two paths do not use the same text-assembly function. -/
theorem C1_counterexample :
    inferText ⟨"", "a", "5", "b", "c"⟩ = "a 5 b c" ∧
    trainText ⟨some "a", some "5", some "b", some "c"⟩ = "a b c" ∧
    inferText ⟨"", "a", "5", "b", "c"⟩ ≠
      trainText ⟨some "a", some "5", some "b", some "c"⟩ := by
  decide

/-- C1 (amended): the salary normalization used at inference (`clean_salary`
in `app.py`) is extensionally equal to the one that produced the training
features (`clean_salary` in `train.py`); the text assembly however is not
shared: when the free-text field is blank and a discrete field is non-blank,
the inference text is the stripped single-space join of the four stripped
fields with salary_range included, unlike the training join of the three
textual fields. -/
theorem C1_theorem :
    (∀ o : Option String, cleanSalaryApp o = cleanSalaryTrain o) ∧
    (∀ f : PredictForm, pyStrip f.text = "" →
      (pyStrip f.job_title ≠ "" ∨ pyStrip f.salary_range ≠ "" ∨
        pyStrip f.company_profile ≠ "" ∨ pyStrip f.requirements ≠ "") →
      inferText f = pyStrip (joinSp [pyStrip f.job_title,
        pyStrip f.salary_range, pyStrip f.company_profile,
        pyStrip f.requirements])) := by
  refine ⟨cleanSalary_app_eq_train, ?_⟩
  intro f ht hd
  simp only [inferText]
  rw [if_pos ⟨ht, hd⟩]

/-- C1, witness: the amended statement evaluated at a concrete salary string
and a concrete form. -/
theorem C1_witness :
    cleanSalaryApp (some "50,000-70,000") = cleanSalaryTrain (some "50,000-70,000") ∧
    inferText ⟨"", "a", "5", "b", "c"⟩ =
      pyStrip (joinSp [pyStrip "a", pyStrip "5", pyStrip "b", pyStrip "c"]) :=
  ⟨C1_theorem.1 (some "50,000-70,000"),
    C1_theorem.2 ⟨"", "a", "5", "b", "c"⟩ (by decide)
      (Or.inr (Or.inl (by decide)))⟩

/-- C2, counterexample: the record with an empty (present) job_title, a
missing salary cell, company_profile "b" and requirements "c" gets the
training text " b c", which carries surrounding whitespace, whereas the
claimed trimmed single-space join of the three fields is "b c". -/
theorem C2_counterexample :
    trainText ⟨some "", none, some "b", some "c"⟩ = " b c" ∧
    pyStrip (joinSp ["", "b", "c"]) = "b c" ∧
    trainText ⟨some "", none, some "b", some "c"⟩ ≠
      pyStrip (joinSp ["", "b", "c"]) := by
  decide

/-- C2 (amended): the training text is the single-space join of exactly
job_title, company_profile, requirements in that order with absent fields as
empty strings, but WITHOUT trimming of surrounding whitespace; the inference
text assembled from discrete fields is trimmed but joins the four stripped
fields including salary_range. -/
theorem C2_theorem :
    (∀ r : JobRecord, trainText r = joinSp [r.job_title.getD "",
      r.company_profile.getD "", r.requirements.getD ""]) ∧
    (∀ f : PredictForm, pyStrip f.text = "" →
      (pyStrip f.job_title ≠ "" ∨ pyStrip f.salary_range ≠ "" ∨
        pyStrip f.company_profile ≠ "" ∨ pyStrip f.requirements ≠ "") →
      inferText f = pyStrip (joinSp [pyStrip f.job_title,
        pyStrip f.salary_range, pyStrip f.company_profile,
        pyStrip f.requirements])) := by
  constructor
  · intro r
    simp [trainText, joinSp, String.append_assoc]
  · intro f ht hd
    simp only [inferText]
    rw [if_pos ⟨ht, hd⟩]

/-- C2, witness: the amended statement evaluated at a concrete record and a
concrete form. -/
theorem C2_witness :
    trainText ⟨some "a", none, some "b", some "c"⟩ = joinSp ["a", "b", "c"] ∧
    inferText ⟨"", "a", "", "b", ""⟩ =
      pyStrip (joinSp [pyStrip "a", pyStrip "", pyStrip "b", pyStrip ""]) :=
  ⟨C2_theorem.1 ⟨some "a", none, some "b", some "c"⟩,
    C2_theorem.2 ⟨"", "a", "", "b", ""⟩ (by decide) (Or.inl (by decide))⟩

/-- C3, counterexample: the regex `\d+(?:,\d+)?` allows at most ONE comma
group per match, so the single run "1,000,000" is split into the two matches
"1,000" and "000", contributing the two numbers 1000 and 0 (average 500)
rather than one number 1000000. -/
theorem C3_counterexample :
    extractNums "1,000,000" = [1000, 0] ∧
    (findNums "1,000,000").length = 2 ∧
    cleanSalaryApp (some "1,000,000") = 500 := by
  refine ⟨by decide, by decide, ?_⟩
  have h : extractNums "1,000,000" = [1000, 0] := by decide
  have hs : ¬ pyStrip "1,000,000" = "" := by decide
  simp [cleanSalaryApp, h, hs]
  norm_num

/-- C3 (amended): salary normalization extracts each maximal digit run with
AT MOST ONE embedded comma group as one number (so "50,000" and "3000" are
single numbers), but a run with several comma groups such as "1,000,000" is
split into several matches. -/
theorem C3_theorem :
    (∀ (s : String), ∀ r ∈ findNums s, r.count ',' ≤ 1) ∧
    extractNums "50,000" = [50000] ∧
    extractNums "3000" = [3000] ∧
    extractNums "1,000,000" = [1000, 0] ∧
    cleanSalaryApp (some "$50,000") = 50000 := by
  exact ⟨fun s r hr => scanNums_count_comma _ _ r hr,
    by decide, by decide, by decide, by decide⟩

/-- C3, witness: the at-most-one-comma bound evaluated on the concrete match
of "50,000". -/
theorem C3_witness : ("50,000".data.count ',') ≤ 1 :=
  C3_theorem.1 "50,000" "50,000".data (by decide)

/-- C4: `clean_salary` returns 0 when no number is found, the number itself
when exactly one is found, and the arithmetic mean of ALL found numbers when
two or more are found, including the range and three-number examples
(for both the `app.py` and `train.py` copies). -/
theorem C4_theorem :
    (∀ s : String, extractNums s = [] → cleanSalaryApp (some s) = 0) ∧
    (∀ (s : String) (x : ℚ), extractNums s = [x] →
      cleanSalaryApp (some s) = x) ∧
    (∀ s : String, 2 ≤ (extractNums s).length →
      cleanSalaryApp (some s) =
        (extractNums s).sum / ((extractNums s).length : ℚ)) ∧
    cleanSalaryApp (some "50,000-70,000") = 60000 ∧
    cleanSalaryTrain (some "50,000-70,000") = 60000 ∧
    cleanSalaryApp (some "100 200 300") = 200 := by
  have hmean : cleanSalaryApp (some "50,000-70,000") = 60000 := by
    have h : extractNums "50,000-70,000" = [50000, 70000] := by decide
    have hs : ¬ pyStrip "50,000-70,000" = "" := by decide
    simp [cleanSalaryApp, h, hs]
    norm_num
  refine ⟨?_, ?_, ?_, hmean, ?_, ?_⟩
  · intro s h
    by_cases hs : pyStrip s = "" <;> simp [cleanSalaryApp, hs, h]
  · intro s x h
    have hs : ¬ pyStrip s = "" := by
      intro hc
      rw [extractNums_eq_nil_of_strip_empty hc] at h
      cases h
    simp [cleanSalaryApp, hs, h, List.headI]
  · intro s h2
    have hs : ¬ pyStrip s = "" := by
      intro hc
      rw [extractNums_eq_nil_of_strip_empty hc] at h2
      simp at h2
    have h0 : ¬ (extractNums s).length = 0 := by omega
    have h1 : ¬ (extractNums s).length = 1 := by omega
    simp only [cleanSalaryApp]
    rw [if_neg hs, if_neg h0, if_neg h1]
  · rw [← cleanSalary_app_eq_train]
    exact hmean
  · have h : extractNums "100 200 300" = [100, 200, 300] := by decide
    have hs : ¬ pyStrip "100 200 300" = "" := by decide
    simp [cleanSalaryApp, h, hs]
    norm_num

/-- C4, witness: the one-number and zero-number clauses evaluated on concrete
strings. -/
theorem C4_witness :
    cleanSalaryApp (some "7 dollars") = 7 ∧
    cleanSalaryApp (some "cash") = 0 :=
  ⟨C4_theorem.2.1 "7 dollars" 7 (by decide),
    C4_theorem.1 "cash" (by decide)⟩

/-- C5: salary normalization is total by construction in this model (both
copies are Lean functions defined on every `Option String`, mirroring that
the Python code has no raising path), always returns a value ≥ 0, and
returns 0 on `None`, empty, whitespace-only and wholly non-numeric input. -/
theorem C5_theorem :
    (∀ o : Option String, 0 ≤ cleanSalaryApp o) ∧
    (∀ o : Option String, 0 ≤ cleanSalaryTrain o) ∧
    cleanSalaryApp none = 0 ∧
    cleanSalaryApp (some "") = 0 ∧
    cleanSalaryApp (some "   ") = 0 ∧
    cleanSalaryApp (some "not a number") = 0 ∧
    cleanSalaryTrain none = 0 ∧
    cleanSalaryTrain (some "   ") = 0 := by
  refine ⟨cleanSalaryApp_nonneg, fun o => ?_, by decide, by decide,
    by decide, by decide, by decide, by decide⟩
  rw [← cleanSalary_app_eq_train]
  exact cleanSalaryApp_nonneg o

/-- C6, counterexample: when the vectorizer file loads fine but the model
file fails to deserialize, the failed load does NOT leave the in-process
cache empty — the vectorizer stays cached (only the model slot is unset). -/
theorem C6_counterexample :
    load_ml (⟨true, .ok 0, true, .error "corrupt artifact"⟩ : Storage Nat Nat)
      ⟨none, none⟩ = ⟨some 0, none⟩ ∧
    load_ml (⟨true, .ok 0, true, .error "corrupt artifact"⟩ : Storage Nat Nat)
      ⟨none, none⟩ ≠ ⟨none, none⟩ :=
  ⟨rfl, by decide⟩

/-- C6 (amended): when the lazy load leaves a cache slot unset (file absent
or deserialization failure), a subsequent prediction reports the
model-unavailable error to the caller without crashing, and the cache is
left incomplete (at least one slot unset — a component loaded before the
failure may remain cached), so the next prediction attempt retries the load
from storage and a later successful load fills both slots. -/
theorem C6_theorem (V M : Type) (env : Env V M) (f : PredictForm)
    (c : MLCache V M) (hist : List (String × String))
    (hfail : (load_ml env.storage c).vectorizer = none ∨
      (load_ml env.storage c).model = none) :
    (inferText f ≠ "" →
      predictRoute env f c hist =
        (.error .modelMissing, load_ml env.storage c, hist)) ∧
    (∀ st2 : Storage V M, st2.vec_exists = true →
      (∃ v, st2.vec_load = .ok v) → st2.model_exists = true →
      (∃ m, st2.model_load = .ok m) →
      (load_ml st2 (load_ml env.storage c)).vectorizer.isSome ∧
      (load_ml st2 (load_ml env.storage c)).model.isSome) :=
  ⟨fun h => predictRoute_missing env f c hist h hfail,
    fun st2 h1 h2 h3 h4 => load_ml_complete_of_good st2 _ h1 h2 h3 h4⟩

/-- C6, witness: a prediction against a cache whose load hit a corrupt model
artifact reports the missing-model error with the partially filled cache,
and a retry against healthy storage fills both slots. -/
theorem C6_witness :
    predictRoute
      (⟨⟨true, .ok 0, true, .error "corrupt artifact"⟩,
        fun _ _ _ => .ok 0, false⟩ : Env Nat Nat)
      ⟨"job", "", "", "", ""⟩ ⟨none, none⟩ [] =
      (.error .modelMissing, ⟨some 0, none⟩, []) ∧
    (load_ml (⟨true, .ok 1, true, .ok 2⟩ : Storage Nat Nat)
      ⟨some 0, none⟩).vectorizer.isSome ∧
    (load_ml (⟨true, .ok 1, true, .ok 2⟩ : Storage Nat Nat)
      ⟨some 0, none⟩).model.isSome := by
  have h := C6_theorem Nat Nat
    ⟨⟨true, .ok 0, true, .error "corrupt artifact"⟩, fun _ _ _ => .ok 0, false⟩
    ⟨"job", "", "", "", ""⟩ ⟨none, none⟩ [] (Or.inr rfl)
  refine ⟨?_, h.2 ⟨true, .ok 1, true, .ok 2⟩ rfl ⟨1, rfl⟩ rfl ⟨2, rfl⟩⟩
  rw [h.1 (by decide)]
  rfl

/-- C7: the predict route fails with the empty-input validation error exactly
when the free-text field and all four discrete form fields are blank after
stripping; in that case it answers before the lazy model load, so the cache,
the history and the model are untouched — for every environment. -/
theorem C7_theorem (V M : Type) (env : Env V M) (f : PredictForm)
    (c : MLCache V M) (hist : List (String × String)) :
    ((predictRoute env f c hist).1 = .error .inputEmpty ↔ allFieldsBlank f) ∧
    (allFieldsBlank f →
      predictRoute env f c hist = (.error .inputEmpty, c, hist)) := by
  have hiff := inferText_eq_empty_iff f
  by_cases h : inferText f = ""
  · have hr := predictRoute_blank env f c hist h
    exact ⟨⟨fun _ => hiff.1 h, fun _ => by rw [hr]⟩, fun _ => hr⟩
  · have hnb : ¬ allFieldsBlank f := fun hb => h (hiff.2 hb)
    exact ⟨⟨fun hc => absurd hc (predictRoute_fst_ne_inputEmpty env f c hist h),
      fun hb => absurd hb hnb⟩, fun hb => absurd hb hnb⟩

/-- C7, witness: the all-blank form (fields of spaces) gets the empty-input
error with cache and history unchanged, in an environment whose model would
answer if it were consulted. -/
theorem C7_witness :
    predictRoute
      (⟨⟨true, .ok 0, true, .ok 0⟩, fun _ _ _ => .ok 0, false⟩ : Env Nat Nat)
      ⟨" ", "", "  ", "", ""⟩ ⟨none, none⟩ [] =
      (.error .inputEmpty, ⟨none, none⟩, []) :=
  (C7_theorem Nat Nat
    ⟨⟨true, .ok 0, true, .ok 0⟩, fun _ _ _ => .ok 0, false⟩
    ⟨" ", "", "  ", "", ""⟩ ⟨none, none⟩ []).2
    ⟨by decide, by decide, by decide, by decide, by decide⟩

/-- C8: raw classifier output 1 maps to "Fake Job Posting", 0 maps to
"Real Job Posting", every raw output maps to one of exactly these two
strings, and every successful response of the predict route carries one of
exactly these two strings. -/
theorem C8_theorem :
    labelOf 1 = "Fake Job Posting" ∧ labelOf 0 = "Real Job Posting" ∧
    (∀ p : Int, labelOf p = "Fake Job Posting" ∨
      labelOf p = "Real Job Posting") ∧
    (∀ (V M : Type) (env : Env V M) (f : PredictForm) (c : MLCache V M)
      (hist : List (String × String)) (l : String)
      (rest : MLCache V M × List (String × String)),
      predictRoute env f c hist = (.ok l, rest) →
      l = "Fake Job Posting" ∨ l = "Real Job Posting") := by
  refine ⟨rfl, rfl, labelOf_cases, ?_⟩
  intro V M env f c hist l rest hok
  by_cases h : inferText f = ""
  · rw [predictRoute_blank env f c hist h] at hok
    simp at hok
  · rcases hv : (load_ml env.storage c).vectorizer with _ | v
    · rw [predictRoute_missing env f c hist h (Or.inl hv)] at hok
      simp at hok
    · rcases hm : (load_ml env.storage c).model with _ | m
      · rw [predictRoute_missing env f c hist h (Or.inr hm)] at hok
        simp at hok
      · rw [predictRoute_ready env f c hist h hv hm] at hok
        cases hrun : env.run m (inferText f)
            (cleanSalaryApp (some (pyStrip f.salary_range))) with
        | error e =>
            rw [hrun] at hok
            simp at hok
        | ok p =>
            rw [hrun] at hok
            by_cases hcf : env.commit_fails = true
            · simp [hcf] at hok
            · simp only [hcf, if_false] at hok
              have hl : labelOf p = l := by
                have h2 := congrArg Prod.fst hok
                simpa using h2
              rw [← hl]
              exact labelOf_cases p

/-- C8, witness: a successful prediction in a healthy environment whose
classifier answers 1 yields the fake-posting label, which is one of the two
fixed strings. -/
theorem C8_witness :
    "Fake Job Posting" = "Fake Job Posting" ∨
    "Fake Job Posting" = "Real Job Posting" :=
  C8_theorem.2.2.2 Nat Nat
    ⟨⟨true, .ok 0, true, .ok 0⟩, fun _ _ _ => .ok 1, false⟩
    ⟨"job", "", "", "", ""⟩ ⟨none, none⟩ [] "Fake Job Posting"
    (⟨some 0, some 0⟩, [("job", "Fake Job Posting")]) rfl

/-- C10: after passing the blank-input validation, a raising classifier is
caught and reported as a typed failure with the history unchanged; more
generally, every error outcome of the route leaves the prediction history
exactly as it was (the history grows only on the success path). -/
theorem C10_theorem (V M : Type) (env : Env V M) (f : PredictForm)
    (c : MLCache V M) (hist : List (String × String)) :
    (∀ (v : V) (m : M) (e : String), inferText f ≠ "" →
      (load_ml env.storage c).vectorizer = some v →
      (load_ml env.storage c).model = some m →
      env.run m (inferText f)
        (cleanSalaryApp (some (pyStrip f.salary_range))) = .error e →
      predictRoute env f c hist =
        (.error (.predictionFailed e), load_ml env.storage c, hist)) ∧
    (∀ (r : PredictErr) (c2 : MLCache V M) (h2 : List (String × String)),
      predictRoute env f c hist = (.error r, c2, h2) → h2 = hist) := by
  constructor
  · intro v m e h hv hm hrun
    rw [predictRoute_ready env f c hist h hv hm, hrun]
  · intro r c2 h2 herr
    by_cases h : inferText f = ""
    · rw [predictRoute_blank env f c hist h] at herr
      have h3 := congrArg (fun t => t.2.2) herr
      exact h3.symm
    · rcases hv : (load_ml env.storage c).vectorizer with _ | v
      · rw [predictRoute_missing env f c hist h (Or.inl hv)] at herr
        have h3 := congrArg (fun t => t.2.2) herr
        exact h3.symm
      · rcases hm : (load_ml env.storage c).model with _ | m
        · rw [predictRoute_missing env f c hist h (Or.inr hm)] at herr
          have h3 := congrArg (fun t => t.2.2) herr
          exact h3.symm
        · rw [predictRoute_ready env f c hist h hv hm] at herr
          cases hrun : env.run m (inferText f)
              (cleanSalaryApp (some (pyStrip f.salary_range))) with
          | error e =>
              rw [hrun] at herr
              have h3 := congrArg (fun t => t.2.2) herr
              exact h3.symm
          | ok p =>
              rw [hrun] at herr
              by_cases hcf : env.commit_fails = true
              · simp only [hcf, if_true] at herr
                have h3 := congrArg (fun t => t.2.2) herr
                exact h3.symm
              · simp [hcf] at herr

/-- C10, witness: a classifier that raises on every input yields the caught
typed failure, and the pre-existing history survives unchanged. -/
theorem C10_witness :
    predictRoute
      (⟨⟨true, .ok 0, true, .ok 0⟩, fun _ _ _ => .error "boom", false⟩ :
        Env Nat Nat)
      ⟨"job", "", "", "", ""⟩ ⟨none, none⟩ [("old", "Real Job Posting")] =
      (.error (.predictionFailed "boom"),
        load_ml (⟨true, .ok 0, true, .ok 0⟩ : Storage Nat Nat) ⟨none, none⟩,
        [("old", "Real Job Posting")]) :=
  (C10_theorem Nat Nat
    ⟨⟨true, .ok 0, true, .ok 0⟩, fun _ _ _ => .error "boom", false⟩
    ⟨"job", "", "", "", ""⟩ ⟨none, none⟩ [("old", "Real Job Posting")]).1
    0 0 "boom" (by decide) rfl rfl rfl

/-- C9: on a training set with both classes present and unequal counts, the
resampler yields equal class counts, every row of the output beyond the
originals duplicates an original minority-class row exactly, and the result
is a deterministic function of the seed-derived index choice. -/
theorem C9_theorem {α : Type} (pick : Nat → Nat) (xs : List (α × Int))
    (h0 : 0 < countLabel 0 xs) (h1 : 0 < countLabel 1 xs)
    (hne : countLabel 0 xs ≠ countLabel 1 xs) :
    countLabel 0 (resample pick xs) = countLabel 1 (resample pick xs) ∧
    (∃ extra, resample pick xs = xs ++ extra ∧
      ∀ r ∈ extra, r ∈ xs.filter (fun p => p.2 == minorityLabel xs)) ∧
    (∀ pick2 : Nat → Nat, (∀ i, pick i = pick2 i) →
      resample pick xs = resample pick2 xs) := by
  have hmin : 0 < countLabel (minorityLabel xs) xs := by
    unfold minorityLabel
    split
    · exact h0
    · exact h1
  rcases hmr : xs.filter (fun p => p.2 == minorityLabel xs) with _ | ⟨r, rs⟩
  · exfalso
    have hz : countLabel (minorityLabel xs) xs = 0 := by
      unfold countLabel
      rw [hmr]
      rfl
    omega
  · have hres : resample pick xs = xs ++
        (List.range (max (countLabel 0 xs) (countLabel 1 xs) -
          min (countLabel 0 xs) (countLabel 1 xs))).map
          (fun i => (r :: rs).getD (pick i % (rs.length + 1)) r) := by
      unfold resample
      rw [if_neg hne, hmr]
    have hmem : ∀ p ∈ (List.range (max (countLabel 0 xs) (countLabel 1 xs) -
        min (countLabel 0 xs) (countLabel 1 xs))).map
        (fun i => (r :: rs).getD (pick i % (rs.length + 1)) r),
        p ∈ xs.filter (fun q => q.2 == minorityLabel xs) := by
      intro p hp
      rcases List.mem_map.1 hp with ⟨i, _, rfl⟩
      rw [hmr]
      exact getD_mem_of_mem _ _ (List.mem_cons_self r rs)
    have hlab : ∀ p ∈ (List.range (max (countLabel 0 xs) (countLabel 1 xs) -
        min (countLabel 0 xs) (countLabel 1 xs))).map
        (fun i => (r :: rs).getD (pick i % (rs.length + 1)) r),
        p.2 = minorityLabel xs := by
      intro p hp
      have h2 := (List.mem_filter.1 (hmem p hp)).2
      simpa using h2
    refine ⟨?_, ⟨_, hres, hmem⟩, ?_⟩
    · set extra := (List.range (max (countLabel 0 xs) (countLabel 1 xs) -
        min (countLabel 0 xs) (countLabel 1 xs))).map
        (fun i => (r :: rs).getD (pick i % (rs.length + 1)) r) with hex
      have hlen : extra.length = max (countLabel 0 xs) (countLabel 1 xs) -
          min (countLabel 0 xs) (countLabel 1 xs) := by
        rw [hex, List.length_map, List.length_range]
      have hcount : ∀ k : Int, countLabel k (xs ++ extra) =
          countLabel k xs + countLabel k extra := by
        intro k
        unfold countLabel
        rw [List.filter_append, List.length_append]
      have hextra_min : countLabel (minorityLabel xs) extra = extra.length := by
        unfold countLabel
        have hall : extra.filter (fun p => p.2 == minorityLabel xs) = extra :=
          List.filter_eq_self.2 fun a ha => by simpa using hlab a ha
        rw [hall]
      have hextra_other : ∀ k : Int, k ≠ minorityLabel xs →
          countLabel k extra = 0 := by
        intro k hk
        unfold countLabel
        have hnil : extra.filter (fun p => p.2 == k) = [] := by
          rw [List.filter_eq_nil_iff]
          intro a ha hcon
          have h2 : a.2 = k := by simpa using hcon
          exact hk (h2 ▸ hlab a ha)
        rw [hnil]
        rfl
      rw [hres]
      by_cases hlt : countLabel 0 xs < countLabel 1 xs
      · have hm0 : minorityLabel xs = 0 := by
          unfold minorityLabel
          rw [if_pos hlt]
        have e0 : countLabel 0 (xs ++ extra) =
            countLabel 0 xs + extra.length := by
          rw [hcount 0, ← hm0, hextra_min, hm0]
        have e1 : countLabel 1 (xs ++ extra) = countLabel 1 xs := by
          rw [hcount 1, hextra_other 1 (by rw [hm0]; decide), Nat.add_zero]
        rw [e0, e1, hlen]
        have hmax : max (countLabel 0 xs) (countLabel 1 xs) =
            countLabel 1 xs := Nat.max_eq_right hlt.le
        have hmin2 : min (countLabel 0 xs) (countLabel 1 xs) =
            countLabel 0 xs := Nat.min_eq_left hlt.le
        omega
      · have hgt : countLabel 1 xs < countLabel 0 xs := by omega
        have hm1 : minorityLabel xs = 1 := by
          unfold minorityLabel
          rw [if_neg hlt]
        have e1 : countLabel 1 (xs ++ extra) =
            countLabel 1 xs + extra.length := by
          rw [hcount 1, ← hm1, hextra_min, hm1]
        have e0 : countLabel 0 (xs ++ extra) = countLabel 0 xs := by
          rw [hcount 0, hextra_other 0 (by rw [hm1]; decide), Nat.add_zero]
        rw [e0, e1, hlen]
        have hmax : max (countLabel 0 xs) (countLabel 1 xs) =
            countLabel 0 xs := Nat.max_eq_left hgt.le
        have hmin2 : min (countLabel 0 xs) (countLabel 1 xs) =
            countLabel 1 xs := Nat.min_eq_right hgt.le
        omega
    · intro pick2 hp
      have hres2 : resample pick2 xs = xs ++
          (List.range (max (countLabel 0 xs) (countLabel 1 xs) -
            min (countLabel 0 xs) (countLabel 1 xs))).map
            (fun i => (r :: rs).getD (pick2 i % (rs.length + 1)) r) := by
        unfold resample
        rw [if_neg hne, hmr]
      rw [hres, hres2]
      congr 1
      apply List.map_congr_left
      intro i _
      rw [hp i]

/-- C9, witness: resampling 3 REAL rows and 1 FAKE row with the identity
index choice equalizes the class counts. -/
theorem C9_witness :
    countLabel 0 (resample (fun i => i)
        [((10 : Nat), (0 : Int)), (20, 0), (30, 0), (1, 1)]) =
      countLabel 1 (resample (fun i => i)
        [((10 : Nat), (0 : Int)), (20, 0), (30, 0), (1, 1)]) :=
  (C9_theorem (fun i => i) [((10 : Nat), (0 : Int)), (20, 0), (30, 0), (1, 1)]
    (by decide) (by decide) (by decide)).1

end FakeJob
